import Mathlib

/-!
# Chapter 6 servers: `simple-webserver2` and `tinytodo-01-base`

Both programs are a `main` that registers handlers on `http.DefaultServeMux`
and calls `http.ListenAndServe(":8080", nil)`.  The embedding has two layers.

* The two `main.go` files (`todoList`, `handleTodo`, both `main`s) are
  translated statement by statement, with the package-level state passed
  explicitly (`Process`).
* The standard-library calls they make (`net/http`: `ServeMux`, `StripPrefix`,
  `FileServer`, `Dir`, `Error`, `NotFound`; `path.Clean`; `html/template`:
  `ParseFiles`, `Execute`) are modelled as executable functions that follow
  the library's handler code.

Scope of the library model:
* a request is its method, decoded URL path, raw query, header fields and
  body; `URL.RawPath` is empty and the request target is in origin form;
* the registered patterns name no host, no method and no wildcard; for such
  patterns all releases of `net/http` route alike, and the host is not part of
  the model;
* a `ResponseWriter` holds the status code and the body bytes of the response
  being written; as in `net/http`, body bytes written for a HEAD request or
  under a status that allows no body are discarded; framing is below the
  model;
* redirects are recorded by status code and target, not by their serialised
  `Location` header and anchor body;
* `serveContent`'s evaluation of conditional and range header fields depends
  on modification times; a request carrying one yields the distinguished
  result `conditional` instead of a guessed response;
* the file system is a finite-map view `String → Option Entry` of the working
  directory, every entry readable; opening a name fails only because nothing
  exists under it;
* the template language is not modelled: parsing and execution are a
  parameter (`TemplateEngine`).
-/

namespace WebTech

/-! ## package `strings` and `path` -/

/-- Model of `strings.HasPrefix`. -/
def HasPrefix (s p : String) : Bool := p.data.isPrefixOf s.data

/-- Model of `strings.HasSuffix`. -/
def HasSuffix (s p : String) : Bool := p.data.isSuffixOf s.data

/-- Model of `strings.TrimPrefix`. -/
def TrimPrefix (s p : String) : String :=
  if HasPrefix s p then ⟨s.data.drop p.data.length⟩ else s

/-- Model of `strings.TrimSuffix`. -/
def TrimSuffix (s p : String) : String :=
  if HasSuffix s p then ⟨s.data.take (s.data.length - p.data.length)⟩ else s

/-- Elements of a slash-separated path, empty elements included. -/
def splitSlash : List Char → List (List Char)
  | [] => [[]]
  | c :: cs =>
    if c = '/' then [] :: splitSlash cs
    else
      match splitSlash cs with
      | [] => [[c]]
      | s :: ss => (c :: s) :: ss

/-- The element loop of `path.Clean`: `acc` is the output so far, last element
first.  Empty and `.` elements are dropped; `..` removes the last output
element when there is one to remove, is dropped at the root of a rooted path,
and is kept at the front of a relative path. -/
def cleanElems (rooted : Bool) : List (List Char) → List (List Char) → List (List Char)
  | acc, [] => acc.reverse
  | acc, e :: es =>
    if e = [] ∨ e = ['.'] then cleanElems rooted acc es
    else if e = ['.', '.'] then
      match acc with
      | top :: rest =>
        if top = ['.', '.'] then cleanElems rooted (e :: acc) es
        else cleanElems rooted rest es
      | [] => if rooted then cleanElems rooted [] es else cleanElems rooted [e] es
    else cleanElems rooted (e :: acc) es

/-- Path elements written one after the other with a slash between them. -/
def joinSlash : List (List Char) → List Char
  | [] => []
  | [e] => e
  | e :: f :: es => e ++ '/' :: joinSlash (f :: es)

/-- Model of `path.Clean` on the characters of a path: the empty path becomes
`.`, a rooted path keeps its leading slash, a relative path that cleans to
nothing becomes `.`. -/
def cleanChars (l : List Char) : List Char :=
  match l with
  | [] => ['.']
  | c :: _ =>
    if c = '/' then '/' :: joinSlash (cleanElems true [] (splitSlash l))
    else
      match cleanElems false [] (splitSlash l) with
      | [] => ['.']
      | out => joinSlash out

/-- Model of `path.Clean`. -/
def pathClean (p : String) : String := ⟨cleanChars p.data⟩

/-- Model of `path.Base`: the last element of the path, trailing slashes
removed first; `.` for the empty path and `/` for a path of slashes. -/
def pathBase (p : String) : String :=
  if p.data = [] then "."
  else
    let q := (p.data.reverse.dropWhile (fun c => c = '/'))
    let b := (q.takeWhile (fun c => c ≠ '/')).reverse
    if b = [] then "/" else ⟨b⟩

/-- Last byte test `s[len(s)-1] == '/'`. -/
def endsWithSlash (s : String) : Bool := s.data.getLast? = some '/'

/-! ## package `net/http`: requests and responses -/

/-- The parts of `*http.Request` that handler code can read. -/
structure Request where
  method : String
  path : String
  query : String
  header : List (String × String)
  body : String
deriving DecidableEq

/-- Model of `Header.Get`: the first value stored under a canonical key, or the
empty string. -/
def Request.Get (r : Request) (key : String) : String :=
  match r.header.find? (fun kv => kv.1 = key) with
  | some kv => kv.2
  | none => ""

/-- Header fields that `serveContent` and `serveFile` evaluate against the
modification time of a file (`checkPreconditions`, `Range`). -/
def conditionalFields : List String :=
  ["If-Match", "If-Unmodified-Since", "If-None-Match", "If-Modified-Since", "If-Range", "Range"]

/-- Whether the request carries one of the `conditionalFields`. -/
def Request.conditional (r : Request) : Bool :=
  conditionalFields.any (fun k => r.Get k ≠ "")

/-- The `http.ResponseWriter` of a request: whether the request is a HEAD
request (`w.req.Method == "HEAD"`), the status code (`none` until
`WriteHeader` is called, explicitly or by the first `Write`) and the body
bytes of the response. -/
structure ResponseWriter where
  head : Bool
  status : Option Nat
  body : String
deriving DecidableEq

/-- The response writer of a request that is not a HEAD request, nothing
written to it yet. -/
def ResponseWriter.fresh : ResponseWriter := ⟨false, none, ""⟩

/-- The response writer the server hands to the handler of a request. -/
def ResponseWriter.forRequest (r : Request) : ResponseWriter :=
  { ResponseWriter.fresh with head := decide (r.method = "HEAD") }

/-- Model of `bodyAllowedForStatus`: informational responses, 204 and 304 have
no body. -/
def bodyAllowedForStatus (status : Nat) : Bool :=
  if 100 ≤ status ∧ status ≤ 199 then false
  else if status = 204 then false
  else if status = 304 then false
  else true

/-- Model of `ResponseWriter.WriteHeader`: only the first call takes effect. -/
def ResponseWriter.WriteHeader (w : ResponseWriter) (code : Nat) : ResponseWriter :=
  match w.status with
  | some _ => w
  | none => { w with status := some code }

/-- Model of `ResponseWriter.Write` (`response.write` and its chunk writer):
the call implies `WriteHeader(http.StatusOK)` when no header was written yet;
the bytes are discarded when the status allows no body and when the request
is a HEAD request, and are appended to the body otherwise. -/
def ResponseWriter.Write (w : ResponseWriter) (b : String) : ResponseWriter :=
  let w1 := w.WriteHeader 200
  if !bodyAllowedForStatus (w1.status.getD 200) then w1
  else if w1.head then w1
  else { w1 with body := w1.body ++ b }

/-- How a call of `ServeHTTP` ends. -/
inductive HandlerResult where
  /-- The handler returned after writing to the response writer. -/
  | returned (w : ResponseWriter)
  /-- The handler answered with a redirect (`http.Redirect`, `localRedirect`). -/
  | redirected (code : Nat) (target : String)
  /-- The file server reached `serveContent` or `dirList` with a conditional
  or range header field present. -/
  | conditional
  /-- The handler panicked with the given value. -/
  | panicked (w : ResponseWriter) (value : String)
deriving DecidableEq

/-- Model of `http.Error`: status `code` and the message followed by a newline. -/
def Error (w : ResponseWriter) (msg : String) (code : Nat) : ResponseWriter :=
  (w.WriteHeader code).Write (msg ++ "\n")

/-- Model of `http.NotFound`. -/
def NotFound (w : ResponseWriter) : ResponseWriter :=
  Error w "404 page not found" 404

/-- Model of `localRedirect`: status 301 with the query string appended to the
new path. -/
def localRedirect (r : Request) (newPath : String) : HandlerResult :=
  .redirected 301 (if r.query = "" then newPath else newPath ++ "?" ++ r.query)

/-! ## The file system and `http.Dir` -/

/-- An entry of the file system: a regular file with its bytes, or a directory
with the HTML listing `dirList` renders for it. -/
inductive Entry where
  | file (bytes : String)
  | dir (listing : String)
deriving DecidableEq

/-- The file system seen from the process working directory. -/
abbrev FileSystem := String → Option Entry

/-- The error of `Dir.Open` on the modelled file system: nothing exists under
the name (`fs.ErrNotExist`).  A name that no file system can hold, such as one
with a NUL byte, names nothing either. -/
inductive OpenError where
  | notExist
deriving DecidableEq

/-- Model of `toHTTPError` on that error. -/
def toHTTPError : OpenError → String × Nat
  | .notExist => ("404 page not found", 404)

/-- The local `fullName` of `http.Dir.Open` for a clean relative root
directory: `filepath.Join(root, path)`, where `path` is the name cleaned as a
rooted path, without its leading slash. -/
def fullName (root name : String) : String :=
  if (⟨(pathClean ("/" ++ name)).data.drop 1⟩ : String) = "" then root
  else root ++ "/" ++ ⟨(pathClean ("/" ++ name)).data.drop 1⟩

/-- Model of `http.Dir.Open`: the entry at `fullName` is opened. -/
def DirOpen (root : String) (fs : FileSystem) (name : String) : Except OpenError Entry :=
  match fs (fullName root name) with
  | none => .error .notExist
  | some e => .ok e

/-! ## `http.FileServer` -/

/-- Model of `serveContent` for a request without conditional or range header
fields: status 200 and, unless the method is HEAD, the whole content. -/
def serveContent (w : ResponseWriter) (r : Request) (content : String) : HandlerResult :=
  if r.conditional then .conditional
  else
    let w1 := w.WriteHeader 200
    if r.method ≠ "HEAD" then .returned (w1.Write content) else .returned w1

/-- Model of `dirList` behind the `If-Modified-Since` check of `serveFile`. -/
def dirList (w : ResponseWriter) (r : Request) (listing : String) : HandlerResult :=
  if r.conditional then .conditional else .returned (w.Write listing)

/-- Model of `serveFile`; `r.path` is `r.URL.Path` and `name` the cleaned path.
As documented for `http.FileServer`, a request whose path ends in
`/index.html` is redirected to the same path without the final `index.html`
before any file is opened.  A directory is served under a path with a
trailing slash (by its `index.html` if there is one, by a listing otherwise),
a file under a path without one; the other spelling is redirected. -/
def serveFile (fs : FileSystem) (root : String) (w : ResponseWriter) (r : Request)
    (name : String) (redirect : Bool) : HandlerResult :=
  if HasSuffix r.path "/index.html" then localRedirect r "./"
  else
    match DirOpen root fs name with
    | .error e => .returned (Error w (toHTTPError e).1 (toHTTPError e).2)
    | .ok (.file bytes) =>
      if redirect && endsWithSlash r.path then
        if pathBase r.path = "/" ∨ pathBase r.path = "." then
          .returned (Error w "http: attempting to traverse a non-directory" 500)
        else localRedirect r ("../" ++ pathBase r.path)
      else serveContent w r bytes
    | .ok (.dir listing) =>
      if !endsWithSlash r.path then localRedirect r (pathBase r.path ++ "/")
      else
        match DirOpen root fs (TrimSuffix name "/" ++ "/index.html") with
        | .ok (.file bytes) => serveContent w r bytes
        | .ok (.dir inner) => dirList w r inner
        | .error _ => dirList w r listing

/-- Model of `(*fileHandler).ServeHTTP` of `http.FileServer(http.Dir(root))`. -/
def fileHandler (fs : FileSystem) (root : String) (w : ResponseWriter) (r : Request) :
    HandlerResult :=
  let upath := if HasPrefix r.path "/" then r.path else "/" ++ r.path
  serveFile fs root w { r with path := upath } (pathClean upath) true

/-! ## `html/template` -/

/-- The template language as a parameter: `Parse` turns the text of a template
file into a template or fails with a message; `Execute` yields the bytes a
template writes for the bound data and the error it returns, if any. -/
structure TemplateEngine (T : Type) where
  Parse : String → Except String T
  Execute : T → List String → String × Option String

/-- Model of `template.ParseFiles` for one file name: the pair `(t, err)`, where
`t` is `nil` (`none`) exactly when reading or parsing the file fails. -/
def ParseFiles {T : Type} (E : TemplateEngine T) (fs : FileSystem) (filename : String) :
    Option T × Option String :=
  match fs filename with
  | some (.file src) =>
    match E.Parse src with
    | .ok t => (some t, none)
    | .error msg => (none, some msg)
  | some (.dir _) => (none, some ("read " ++ filename ++ ": is a directory"))
  | none => (none, some ("open " ++ filename ++ ": no such file or directory"))

/-- Value of the run-time panic raised by a nil pointer dereference. -/
def nilDereference : String :=
  "runtime error: invalid memory address or nil pointer dereference"

/-- Model of `(*Template).Execute`: the method starts by reading a field of
its receiver, so on a nil receiver it panics with a nil pointer dereference
before writing; otherwise the output is written to `w` and the error of the
execution is returned. -/
def TemplateExecute {T : Type} (E : TemplateEngine T) (t : Option T) (w : ResponseWriter)
    (data : List String) : Except String (ResponseWriter × Option String) :=
  match t with
  | none => .error nilDereference
  | some t => .ok (w.Write (E.Execute t data).1, (E.Execute t data).2)

/-- The replacement table of the `html/template` escaper for HTML text. -/
def htmlEscapeChar (c : Char) : List Char :=
  if c = Char.ofNat 0 then [Char.ofNat 0xFFFD]
  else if c = Char.ofNat 34 then "&#34;".data
  else if c = '&' then "&amp;".data
  else if c = Char.ofNat 39 then "&#39;".data
  else if c = '+' then "&#43;".data
  else if c = '<' then "&lt;".data
  else if c = '>' then "&gt;".data
  else [c]

/-- Model of the `html/template` escaper applied to a string in HTML text. -/
def htmlEscape (s : String) : String := ⟨s.data.flatMap htmlEscapeChar⟩

/-! ## `http.ServeMux` -/

/-- The handlers the two programs construct, and the two the mux answers with
itself. -/
inductive Handler where
  /-- The value `http.FileServer(http.Dir(root))`. -/
  | FileServer (root : String)
  /-- The value `http.StripPrefix(pfx, h)`. -/
  | StripPrefix (pfx : String) (h : Handler)
  /-- The value `http.HandlerFunc(handleTodo)`. -/
  | handleTodo
  /-- The value `http.NotFoundHandler()`. -/
  | NotFoundHandler
  /-- The value `http.RedirectHandler(url, code)`. -/
  | RedirectHandler (url : String) (code : Nat)
deriving DecidableEq

/-- Registered patterns with their handlers, in registration order. -/
structure ServeMux where
  m : List (String × Handler)
deriving DecidableEq

/-- Model of `(*ServeMux).Handle` for a pattern not registered before. -/
def ServeMux.Handle (mux : ServeMux) (pattern : String) (h : Handler) : ServeMux :=
  ⟨mux.m ++ [(pattern, h)]⟩

/-- Lookup `mux.m[path]`. -/
def ServeMux.exact (mux : ServeMux) (path : String) : Option Handler :=
  (mux.m.find? (fun e => e.1 = path)).map (fun e => e.2)

/-- Longest registered pattern ending in a slash that is a leading part of
the path (the scan of `mux.es`). -/
def longestSubtree (path : String) :
    List (String × Handler) → Option (String × Handler) → Option (String × Handler)
  | [], best => best
  | e :: es, best =>
    if HasSuffix e.1 "/" && HasPrefix path e.1 &&
        (match best with
         | none => true
         | some b => decide (b.1.length < e.1.length))
    then longestSubtree path es (some e)
    else longestSubtree path es best

/-- Model of `(*ServeMux).match`: an exact match first, then the longest
subtree pattern. -/
def ServeMux.matchPath (mux : ServeMux) (path : String) : Option Handler :=
  match mux.exact path with
  | some h => some h
  | none => (longestSubtree path mux.m none).map (fun e => e.2)

/-- Model of `(*ServeMux).handler`: the matching handler or
`NotFoundHandler()`. -/
def ServeMux.handler (mux : ServeMux) (path : String) : Handler :=
  match mux.matchPath path with
  | some h => h
  | none => .NotFoundHandler

/-- Model of `shouldRedirectRLocked`: the path is not registered, but the path
followed by a slash is. -/
def ServeMux.shouldRedirect (mux : ServeMux) (path : String) : Bool :=
  if (mux.exact path).isSome then false
  else if path.data = [] then false
  else if (mux.exact (path ++ "/")).isSome then !endsWithSlash path
  else false

/-- Model of `cleanPath`: the canonical form of a request path, `path.Clean`
with a trailing slash kept. -/
def cleanPath (p : String) : String :=
  if p.data = [] then "/"
  else
    let p1 := if HasPrefix p "/" then p else "/" ++ p
    let np := pathClean p1
    if endsWithSlash p1 && np ≠ "/" then
      if p1.data.length = np.data.length + 1 && HasPrefix p1 np then p1 else np ++ "/"
    else np

/-- Target of a mux redirect: the URL with the given path and the raw query of
the request. -/
def redirectURL (path query : String) : String :=
  if query = "" then path else path ++ "?" ++ query

/-- Model of `(*ServeMux).Handler`.  As documented for `ServeMux`, a request
naming a registered subtree root without its trailing slash is redirected to
the subtree root, and a request whose path has `.` or `..` elements or repeated
slashes is redirected to the equivalent clean path; CONNECT requests are
matched as they are, without cleaning the path. -/
def ServeMux.Handler (mux : ServeMux) (r : Request) : Handler :=
  if r.method = "CONNECT" then
    if mux.shouldRedirect r.path then
      .RedirectHandler (redirectURL (r.path ++ "/") r.query) 301
    else mux.handler r.path
  else
    let path := cleanPath r.path
    if mux.shouldRedirect path then
      .RedirectHandler (redirectURL (path ++ "/") r.query) 301
    else if path ≠ r.path then
      .RedirectHandler (redirectURL path r.query) 301
    else mux.handler r.path

/-! ## Package-level state, `handleTodo` and the server loop -/

/-- The package-level variables a handler can reach: `todoList` of
`tinytodo-01-base` and `http.DefaultServeMux`.  `simple-webserver2` declares no
variable of its own; its `todoList` component stays empty and is never read. -/
structure Process where
  todoList : List String
  DefaultServeMux : ServeMux
deriving DecidableEq

/-- State at process start: `var todoList []string` is nil and nothing is
registered on the default mux. -/
def Process.start : Process := ⟨[], ⟨[]⟩⟩

/-- The function `handleTodo` of `tinytodo-01-base/main.go`:
`t, _ := template.ParseFiles("templates/todo.html")` followed by
`t.Execute(w, todoList)`, whose returned error is dropped as well.  The
request `r` is not used.  The package state is returned as it was received. -/
def handleTodo {T : Type} (E : TemplateEngine T) (fs : FileSystem) (p : Process)
    (w : ResponseWriter) (_r : Request) : Process × HandlerResult :=
  match TemplateExecute E (ParseFiles E fs "templates/todo.html").1 w p.todoList with
  | .error value => (p, .panicked w value)
  | .ok res => (p, .returned res.1)

/-- Model of `Handler.ServeHTTP` for each handler value. -/
def Handler.ServeHTTP {T : Type} (E : TemplateEngine T) (fs : FileSystem) (p : Process) :
    Handler → ResponseWriter → Request → Process × HandlerResult
  | .FileServer root, w, r => (p, fileHandler fs root w r)
  | .StripPrefix pfx h, w, r =>
    if pfx = "" then h.ServeHTTP E fs p w r
    else if (TrimPrefix r.path pfx).data.length < r.path.data.length then
      h.ServeHTTP E fs p w { r with path := TrimPrefix r.path pfx }
    else (p, .returned (NotFound w))
  | .handleTodo, w, r => WebTech.handleTodo E fs p w r
  | .NotFoundHandler, w, _ => (p, .returned (NotFound w))
  | .RedirectHandler url code, _, _ => (p, .redirected code url)

/-- What the server does with a request once the handler is done. -/
inductive Outcome where
  /-- A response with this status code and body was produced. -/
  | response (status : Nat) (body : String)
  /-- A redirect with this status code and target was produced. -/
  | redirect (status : Nat) (target : String)
  /-- The file server evaluated conditional or range header fields. -/
  | conditional
  /-- The handler panicked: the server recovers the panic, writes it with its
  value to the error log and closes the connection without finishing a
  response; `written` is what the handler had written before. -/
  | aborted (written : String) (value : String)
deriving DecidableEq

/-- Status code of an outcome that has one. -/
def Outcome.status : Outcome → Option Nat
  | .response s _ => some s
  | .redirect s _ => some s
  | .conditional => none
  | .aborted _ _ => none

/-- End of a request in `(*conn).serve`: a handler that returned without
writing a header gets status 200; a panic is recovered, logged and the
connection closed. -/
def finish : HandlerResult → Outcome
  | .returned w => .response (w.status.getD 200) w.body
  | .redirected code target => .redirect code target
  | .conditional => .conditional
  | .panicked w value => .aborted w.body value

/-- One request through `http.DefaultServeMux` (the handler argument of
`ListenAndServe` is nil): the state after it and its outcome. -/
def serveRequest {T : Type} (E : TemplateEngine T) (p : Process) (fs : FileSystem)
    (r : Request) : Process × Outcome :=
  let res := (p.DefaultServeMux.Handler r).ServeHTTP E fs p (ResponseWriter.forRequest r) r
  (res.1, finish res.2)

/-- Requests served one after the other, each with the file system as it is
when the request is handled. -/
def serveAll {T : Type} (E : TemplateEngine T) :
    Process → List (FileSystem × Request) → Process × List Outcome
  | p, [] => (p, [])
  | p, (fs, r) :: rest =>
    let step := serveRequest E p fs r
    let tail := serveAll E step.1 rest
    (tail.1, step.2 :: tail.2)

/-- What the environment does to `http.ListenAndServe(":8080", nil)`: the bind
fails with an error, or the listener serves some requests and then returns.
`err` is the returned value, `none` a nil error; the library only ever returns
a non-nil one, the nil case is kept so that both branches of the test in
`main` can be stated. -/
inductive Listen where
  | bindFailed (err : String)
  | served (traffic : List (FileSystem × Request)) (err : Option String)

/-- Model of `http.ListenAndServe`: final state, outcomes of the requests
served, and the returned error. -/
def ListenAndServe {T : Type} (E : TemplateEngine T) (p : Process) :
    Listen → Process × List Outcome × Option String
  | .bindFailed err => (p, [], some err)
  | .served traffic err =>
    ((serveAll E p traffic).1, (serveAll E p traffic).2, err)

/-- A run of `main`: the outcomes of the requests served, the final state, the
message handed to `log.Fatal` if it was called, and the exit status. -/
structure Run where
  final : Process
  outcomes : List Outcome
  fatal : Option String
  exitCode : Nat

/-- The tail shared by both `main`s:
`err := http.ListenAndServe(":8080", nil)` and
`if err != nil { log.Fatal("failed to start : ", err) }`;
`log.Fatal` prints its operands and calls `os.Exit(1)`. -/
def listenOrDie {T : Type} (E : TemplateEngine T) (p : Process) (L : Listen) : Run :=
  match ListenAndServe E p L with
  | (q, outs, some err) => ⟨q, outs, some ("failed to start : " ++ err), 1⟩
  | (q, outs, none) => ⟨q, outs, none, 0⟩

namespace SimpleWebserver2

/-- State when `main` of `simple-webserver2` calls `ListenAndServe`:
`http.Handle("/", http.FileServer(http.Dir("static")))` has run. -/
def atListen : Process :=
  { Process.start with
    DefaultServeMux := Process.start.DefaultServeMux.Handle "/" (.FileServer "static") }

/-- The function `main` of `simple-webserver2/main.go`. -/
def main {T : Type} (E : TemplateEngine T) (L : Listen) : Run :=
  listenOrDie E atListen L

end SimpleWebserver2

namespace TinyTodo

/-- The three hardcoded items of `main`. -/
def items : List String := ["顔を洗う", "朝食を食べる", "歯を磨く"]

/-- First statement of `main`:
`todoList = append(todoList, "顔を洗う", "朝食を食べる", "歯を磨く")`. -/
def afterAppend (p : Process) : Process :=
  { p with todoList := p.todoList ++ items }

/-- Second statement of `main`:
`http.Handle("/static/", http.StripPrefix("/static/", http.FileServer(http.Dir("static"))))`. -/
def afterHandleStatic (p : Process) : Process :=
  { p with
    DefaultServeMux :=
      p.DefaultServeMux.Handle "/static/" (.StripPrefix "/static/" (.FileServer "static")) }

/-- Third statement of `main`: `http.HandleFunc("/todo", handleTodo)`. -/
def afterHandleTodo (p : Process) : Process :=
  { p with DefaultServeMux := p.DefaultServeMux.Handle "/todo" .handleTodo }

/-- State when `main` of `tinytodo-01-base` calls `ListenAndServe`. -/
def atListen : Process :=
  afterHandleTodo (afterHandleStatic (afterAppend Process.start))

/-- The function `main` of `tinytodo-01-base/main.go`. -/
def main {T : Type} (E : TemplateEngine T) (L : Listen) : Run :=
  listenOrDie E atListen L

end TinyTodo

/-- The strings of `needles` occur in `s` one after the other, in this order,
without overlap. -/
def occurInOrder (s : String) : List String → Prop
  | [] => True
  | n :: ns => ∃ a b : String, s = a ++ n ++ b ∧ occurInOrder b ns

/-! ## Valid path elements -/

/-- A path element that `path.Clean` keeps as it is. -/
def validElem (e : List Char) : Prop :=
  e ≠ [] ∧ e ≠ ['.'] ∧ e ≠ ['.', '.'] ∧ '/' ∉ e

instance (e : List Char) : Decidable (validElem e) := by
  unfold validElem; infer_instance

/-- A file or directory name that can be an element of a served path: not
empty, not `.` or `..`, without a slash and without a NUL byte. -/
def validName (n : String) : Prop :=
  validElem n.data ∧ Char.ofNat 0 ∉ n.data

instance (n : String) : Decidable (validName n) := by
  unfold validName; infer_instance

/-- The relative path with the given elements. -/
def joinPath (names : List String) : String := ⟨joinSlash (names.map String.data)⟩

/-! ## Sample environment -/

/-- A template engine to instantiate the theorems with: the text of two
opening braces fails to parse (an unclosed action), every other text is a
template whose execution renders the bound items, each HTML-escaped, as the
entries of a list. -/
def sampleEngine : TemplateEngine Unit where
  Parse := fun src => if src = "\x7b\x7b" then .error "template: unclosed action" else .ok ()
  Execute := fun _ xs =>
    ("<ul>" ++ String.join (xs.map (fun x => "<li>" ++ htmlEscape x ++ "</li>")) ++ "</ul>", none)

/-- A working directory with a template, a style sheet, an index page and a
subdirectory. -/
def sampleFS : FileSystem := fun name =>
  if name = "templates/todo.html" then some (.file "<ul>...</ul>")
  else if name = "static" then some (.dir "<pre>app.css index.html sub</pre>")
  else if name = "static/app.css" then some (.file "h1 \x7b margin: 0 \x7d")
  else if name = "static/index.html" then some (.file "<html></html>")
  else if name = "static/sub" then some (.dir "<pre></pre>")
  else none

/-- A working directory without `templates/todo.html`. -/
def emptyFS : FileSystem := fun _ => none

/-- A working directory whose `templates/todo.html` does not parse. -/
def brokenFS : FileSystem := fun name =>
  if name = "templates/todo.html" then some (.file "\x7b\x7b") else none

/-- A plain GET request for a path. -/
def get (path : String) : Request := ⟨"GET", path, "", [], ""⟩

/-- A plain HEAD request for a path. -/
def head (path : String) : Request := ⟨"HEAD", path, "", [], ""⟩

/-! ## Facts about `path.Clean` -/

theorem splitSlash_slashfree (l : List Char) : ∀ e ∈ splitSlash l, '/' ∉ e := by
  induction l with
  | nil => simp [splitSlash]
  | cons c cs ih =>
    unfold splitSlash
    split
    · intro e he
      simp only [List.mem_cons] at he
      rcases he with rfl | he
      · simp
      · exact ih e he
    · rename_i hc
      split
      · intro e he
        simp only [List.mem_singleton] at he
        subst he
        simp [Ne.symm hc]
      · rename_i s ss hs
        intro e he
        simp only [List.mem_cons] at he
        rcases he with rfl | he
        · have := ih s (by rw [hs]; simp)
          simp [Ne.symm hc, this]
        · exact ih e (by rw [hs]; simp [he])

theorem splitSlash_single (n : List Char) (h : '/' ∉ n) : splitSlash n = [n] := by
  induction n with
  | nil => rfl
  | cons c cs ih =>
    simp only [List.mem_cons, not_or] at h
    unfold splitSlash
    rw [if_neg (Ne.symm h.1), ih h.2]

theorem splitSlash_cons_ne (c : Char) (cs : List Char) (h : c ≠ '/') :
    splitSlash (c :: cs) =
      match splitSlash cs with
      | [] => [[c]]
      | s :: ss => (c :: s) :: ss := by
  rw [splitSlash, if_neg h]

theorem splitSlash_append (n rest : List Char) (h : '/' ∉ n) :
    splitSlash (n ++ '/' :: rest) = n :: splitSlash rest := by
  induction n with
  | nil => simp [splitSlash]
  | cons c cs ih =>
    simp only [List.mem_cons, not_or] at h
    rw [List.cons_append, splitSlash_cons_ne _ _ (Ne.symm h.1), ih h.2]

theorem splitSlash_join (names : List (List Char)) (hne : names ≠ [])
    (h : ∀ e ∈ names, '/' ∉ e) : splitSlash (joinSlash names) = names := by
  induction names with
  | nil => exact absurd rfl hne
  | cons e es ih =>
    cases es with
    | nil => simpa [joinSlash] using splitSlash_single e (h e (by simp))
    | cons f fs =>
      rw [joinSlash, splitSlash_append e _ (h e (by simp)),
        ih (by simp) (fun x hx => h x (List.mem_cons_of_mem _ hx))]

theorem cleanElems_valid (rooted : Bool) (es : List (List Char)) :
    ∀ acc, (∀ e ∈ es, validElem e) → cleanElems rooted acc es = acc.reverse ++ es := by
  induction es with
  | nil => intro acc _; simp [cleanElems]
  | cons e es ih =>
    intro acc h
    obtain ⟨h1, h2, h3, _⟩ := h e (by simp)
    unfold cleanElems
    rw [if_neg (by simp [h1, h2]), if_neg h3, ih _ (fun x hx => h x (List.mem_cons_of_mem _ hx))]
    simp

theorem cleanElems_out_valid (es : List (List Char)) :
    ∀ acc, (∀ e ∈ acc, validElem e) → (∀ e ∈ es, '/' ∉ e) →
      ∀ e ∈ cleanElems true acc es, validElem e := by
  induction es with
  | nil => intro acc hacc _ e he; simp [cleanElems] at he; exact hacc e he
  | cons x xs ih =>
    intro acc hacc hes
    have hxs : ∀ e ∈ xs, '/' ∉ e := fun e he => hes e (List.mem_cons_of_mem _ he)
    unfold cleanElems
    split
    · exact ih acc hacc hxs
    · rename_i hx1
      split
      · rename_i hx2
        cases acc with
        | nil => simpa using ih [] hacc hxs
        | cons top rest =>
          have htop := hacc top (by simp)
          have hrest : ∀ e ∈ rest, validElem e := fun e he => hacc e (List.mem_cons_of_mem _ he)
          simp only []
          rw [if_neg htop.2.2.1]
          exact ih rest hrest hxs
      · rename_i hx2
        refine ih (x :: acc) ?_ hxs
        intro e he
        simp only [List.mem_cons] at he
        rcases he with rfl | he
        · simp only [not_or] at hx1
          exact ⟨hx1.1, hx1.2, hx2, hes _ (by simp)⟩
        · exact hacc e he

theorem cleanChars_join (names : List (List Char)) (h : ∀ e ∈ names, validElem e) :
    cleanChars ('/' :: joinSlash names) = '/' :: joinSlash names := by
  cases names with
  | nil => simp [cleanChars, splitSlash, joinSlash, cleanElems]
  | cons e es =>
    have hsplit : splitSlash ('/' :: joinSlash (e :: es)) = [] :: e :: es := by
      have := splitSlash_join (e :: es) (by simp) (fun x hx => (h x hx).2.2.2)
      simp [splitSlash, this]
    unfold cleanChars
    simp only [if_true, hsplit]
    rw [cleanElems]
    simp [cleanElems_valid true (e :: es) [] h]

theorem cleanChars_rooted (l : List Char) :
    ∃ out, (∀ e ∈ out, validElem e) ∧ cleanChars ('/' :: l) = '/' :: joinSlash out := by
  refine ⟨cleanElems true [] (splitSlash ('/' :: l)), ?_, ?_⟩
  · exact cleanElems_out_valid _ [] (by simp) (splitSlash_slashfree _)
  · simp [cleanChars]

theorem cleanChars_idem (l : List Char) :
    cleanChars (cleanChars ('/' :: l)) = cleanChars ('/' :: l) := by
  obtain ⟨out, hv, ho⟩ := cleanChars_rooted l
  rw [ho, cleanChars_join out hv]

theorem cleanChars_slash_slash (l : List Char) :
    cleanChars ('/' :: '/' :: l) = cleanChars ('/' :: l) := by
  simp [cleanChars, splitSlash, cleanElems]

theorem joinSlash_head (names : List (List Char)) (h : ∀ e ∈ names, validElem e) :
    (joinSlash names).head? ≠ some '/' := by
  cases names with
  | nil => simp [joinSlash]
  | cons e es =>
    obtain ⟨h1, _, _, h4⟩ := h e (by simp)
    cases e with
    | nil => exact absurd rfl h1
    | cons c cs =>
      simp only [List.mem_cons, not_or] at h4
      cases es <;> simp [joinSlash, Ne.symm h4.1]

theorem joinSlash_ne_nil (names : List (List Char)) (hne : names ≠ [])
    (h : ∀ e ∈ names, validElem e) : joinSlash names ≠ [] := by
  cases names with
  | nil => exact absurd rfl hne
  | cons e es =>
    have h1 := (h e (by simp)).1
    cases es <;> simp [joinSlash, h1]

theorem joinSlash_last (names : List (List Char)) (hne : names ≠ [])
    (h : ∀ e ∈ names, validElem e) : (joinSlash names).getLast? ≠ some '/' := by
  induction names with
  | nil => exact absurd rfl hne
  | cons e es ih =>
    obtain ⟨h1, _, _, h4⟩ := h e (by simp)
    cases es with
    | nil =>
      simp only [joinSlash]
      intro hl
      exact h4 (List.mem_of_getLast?_eq_some hl)
    | cons f fs =>
      have hv : ∀ x ∈ f :: fs, validElem x := fun x hx => h x (List.mem_cons_of_mem _ hx)
      have := ih (by simp) hv
      have hne2 := joinSlash_ne_nil (f :: fs) (by simp) hv
      rw [joinSlash, List.getLast?_append]
      obtain ⟨y, ys, hy⟩ := List.exists_cons_of_ne_nil hne2
      rw [hy] at this ⊢
      rw [List.getLast?_cons_cons]
      cases hl : (y :: ys).getLast? with
      | none => simp at hl
      | some z => rw [hl] at this; simpa using this

/-! ## String-level facts -/

theorem hasPrefix_slash_iff (p : String) : HasPrefix p "/" = true ↔ ∃ l, p.data = '/' :: l := by
  unfold HasPrefix
  show List.isPrefixOf ['/'] p.data = true ↔ _
  generalize p.data = d
  cases d with
  | nil => simp [List.isPrefixOf]
  | cons c cs =>
    simp only [List.isPrefixOf, Bool.and_true, beq_iff_eq, List.cons.injEq, exists_eq_right']
    exact eq_comm

theorem hasPrefix_slash_append (s : String) : HasPrefix ("/" ++ s) "/" = true :=
  (hasPrefix_slash_iff _).2 ⟨s.data, by rw [String.data_append]; rfl⟩

theorem pathClean_rooted (p : String) (h : HasPrefix p "/" = true) :
    HasPrefix (pathClean p) "/" = true := by
  obtain ⟨l, hl⟩ := (hasPrefix_slash_iff p).1 h
  obtain ⟨out, _, ho⟩ := cleanChars_rooted l
  exact (hasPrefix_slash_iff _).2 ⟨joinSlash out, by simp [pathClean, hl, ho]⟩

theorem pathClean_idem (p : String) (h : HasPrefix p "/" = true) :
    pathClean (pathClean p) = pathClean p := by
  obtain ⟨l, hl⟩ := (hasPrefix_slash_iff p).1 h
  simp [pathClean, hl, cleanChars_idem]

theorem pathClean_slash (p : String) (h : HasPrefix p "/" = true) :
    pathClean ("/" ++ p) = pathClean p := by
  obtain ⟨l, hl⟩ := (hasPrefix_slash_iff p).1 h
  have : ("/" ++ p).data = '/' :: '/' :: l := by rw [String.data_append, hl]; rfl
  simp [pathClean, this, hl, cleanChars_slash_slash]

theorem DirOpen_congr (root : String) (fs : FileSystem) (a b : String)
    (h : pathClean ("/" ++ a) = pathClean ("/" ++ b)) : DirOpen root fs a = DirOpen root fs b := by
  unfold DirOpen fullName
  rw [h]

theorem DirOpen_upath (root : String) (fs : FileSystem) (p : String) :
    DirOpen root fs (pathClean (if HasPrefix p "/" = true then p else "/" ++ p)) =
      DirOpen root fs p := by
  apply DirOpen_congr
  by_cases hp : HasPrefix p "/" = true
  · rw [if_pos hp, pathClean_slash _ (pathClean_rooted p hp), pathClean_idem p hp,
      pathClean_slash p hp]
  · rw [if_neg hp, pathClean_slash _ (pathClean_rooted _ (hasPrefix_slash_append p)),
      pathClean_idem _ (hasPrefix_slash_append p)]

theorem cleanPath_rooted (p : String) (h : cleanPath p = p) : HasPrefix p "/" = true := by
  by_contra hp
  have hp1 : HasPrefix ("/" ++ p) "/" = true := hasPrefix_slash_append p
  have hnp := pathClean_rooted _ hp1
  unfold cleanPath at h
  by_cases h0 : p.data = []
  · rw [if_pos h0] at h
    rw [← h] at h0
    exact absurd h0 (by decide)
  · rw [if_neg h0] at h
    simp only [hp, if_false, Bool.false_eq_true] at h
    have key : ∀ q : String, HasPrefix q "/" = true → q ≠ p := by
      intro q hq hqp; rw [hqp] at hq; exact hp hq
    split at h
    · split at h
      · exact key _ hp1 h
      · refine key _ ?_ h
        obtain ⟨l, hl⟩ := (hasPrefix_slash_iff _).1 hnp
        exact (hasPrefix_slash_iff _).2 ⟨l ++ ['/'], by rw [String.data_append, hl]; rfl⟩
    · exact key _ hnp h

/-! ## Routing in `simple-webserver2` -/

theorem append_slash_ne_slash (p : String) (h : p.data ≠ []) : ("/" : String) ≠ p ++ "/" := by
  intro he
  have hd := congrArg String.data he
  rw [String.data_append] at hd
  have hl := congrArg List.length hd
  rw [List.length_append] at hl
  have h1 : ("/" : String).data.length = 1 := rfl
  have : 0 < p.data.length := List.length_pos.2 h
  omega

theorem simple_mux : SimpleWebserver2.atListen.DefaultServeMux = ⟨[("/", .FileServer "static")]⟩ :=
  rfl

theorem simple_handler (p : String) (h : HasPrefix p "/" = true) :
    SimpleWebserver2.atListen.DefaultServeMux.handler p = .FileServer "static" := by
  rw [simple_mux]
  unfold ServeMux.handler ServeMux.matchPath ServeMux.exact
  by_cases hp : ("/" : String) = p
  · simp [List.find?, hp]
  · have hs : HasSuffix "/" "/" = true := by decide
    simp [List.find?, hp, longestSubtree, hs, h]

theorem simple_shouldRedirect (p : String) (h : HasPrefix p "/" = true) :
    SimpleWebserver2.atListen.DefaultServeMux.shouldRedirect p = false := by
  rw [simple_mux]
  obtain ⟨l, hl⟩ := (hasPrefix_slash_iff p).1 h
  have hne : p.data ≠ [] := by rw [hl]; simp
  have := append_slash_ne_slash p hne
  unfold ServeMux.shouldRedirect ServeMux.exact
  by_cases hp : ("/" : String) = p
  · simp [List.find?, hp]
  · simp [List.find?, hp, hne, this]

theorem simple_route (r : Request) (h : cleanPath r.path = r.path) :
    SimpleWebserver2.atListen.DefaultServeMux.Handler r = .FileServer "static" := by
  have hr := cleanPath_rooted _ h
  unfold ServeMux.Handler
  simp only [h, simple_shouldRedirect _ hr, simple_handler _ hr]
  simp

/-! ## The file handler -/

theorem fileHandler_notExist (fs : FileSystem) (root : String) (w : ResponseWriter) (r : Request)
    (hidx : HasSuffix (if HasPrefix r.path "/" = true then r.path else "/" ++ r.path)
      "/index.html" = false)
    (hmiss : DirOpen root fs r.path = .error .notExist) :
    fileHandler fs root w r = .returned (NotFound w) := by
  unfold fileHandler serveFile
  simp only [hidx, DirOpen_upath, hmiss]
  simp [toHTTPError, NotFound]

/-! ## Paths made of valid names -/

theorem validElem_data (names : List String) (h : ∀ n ∈ names, validName n) :
    ∀ e ∈ names.map String.data, validElem e := by
  intro e he
  obtain ⟨n, hn, rfl⟩ := List.mem_map.1 he
  exact (h n hn).1

theorem slash_joinPath_data (names : List String) :
    ("/" ++ joinPath names).data = '/' :: joinSlash (names.map String.data) := by
  rw [String.data_append]; rfl

theorem pathClean_joinPath (names : List String) (h : ∀ n ∈ names, validName n) :
    pathClean ("/" ++ joinPath names) = "/" ++ joinPath names := by
  apply String.ext
  rw [pathClean, slash_joinPath_data]
  exact cleanChars_join _ (validElem_data names h)

theorem joinPath_ne_nil (names : List String) (hne : names ≠ [])
    (h : ∀ n ∈ names, validName n) : (joinPath names).data ≠ [] :=
  joinSlash_ne_nil _ (by simpa using hne) (validElem_data names h)

theorem endsWithSlash_joinPath (names : List String) (hne : names ≠ [])
    (h : ∀ n ∈ names, validName n) : endsWithSlash ("/" ++ joinPath names) = false := by
  unfold endsWithSlash
  rw [slash_joinPath_data]
  have h1 := joinSlash_last _ (by simpa using hne) (validElem_data names h)
  have h2 := joinSlash_ne_nil _ (by simpa using hne) (validElem_data names h)
  obtain ⟨y, ys, hy⟩ := List.exists_cons_of_ne_nil h2
  rw [hy] at h1 ⊢
  rw [List.getLast?_cons_cons]
  simpa using h1

theorem hasPrefix_joinPath (names : List String) (h : ∀ n ∈ names, validName n) :
    HasPrefix (joinPath names) "/" = false := by
  have h1 := joinSlash_head _ (validElem_data names h)
  cases hp : HasPrefix (joinPath names) "/" with
  | false => rfl
  | true =>
    obtain ⟨l, hl⟩ := (hasPrefix_slash_iff _).1 hp
    have : (joinPath names).data = joinSlash (names.map String.data) := rfl
    rw [← this, hl] at h1
    simp at h1

theorem cleanPath_of_clean (p : String) (hr : HasPrefix p "/" = true) (hc : pathClean p = p)
    (hs : endsWithSlash p = false) : cleanPath p = p := by
  obtain ⟨l, hl⟩ := (hasPrefix_slash_iff p).1 hr
  unfold cleanPath
  simp [hl, hr, hc, hs]

theorem cleanPath_joinPath (names : List String) (hne : names ≠ [])
    (h : ∀ n ∈ names, validName n) : cleanPath ("/" ++ joinPath names) = "/" ++ joinPath names :=
  cleanPath_of_clean _ (hasPrefix_slash_append _) (pathClean_joinPath names h)
    (endsWithSlash_joinPath names hne h)

theorem static_joinPath (names : List String) (hne : names ≠ []) :
    "/static/" ++ joinPath names = "/" ++ joinPath ("static" :: names) := by
  apply String.ext
  rw [String.data_append, slash_joinPath_data]
  cases names with
  | nil => exact absurd rfl hne
  | cons n ns => rfl

theorem fullName_joinPath (names : List String) (hne : names ≠ [])
    (h : ∀ n ∈ names, validName n) :
    fullName "static" (joinPath names) = "static/" ++ joinPath names := by
  have h1 : (⟨(pathClean ("/" ++ joinPath names)).data.drop 1⟩ : String) = joinPath names := by
    rw [pathClean_joinPath names h]
    apply String.ext
    rw [slash_joinPath_data]
    rfl
  have h2 : joinPath names ≠ "" := by
    intro h0
    exact joinPath_ne_nil names hne h (by rw [h0])
  have h3 : "static" ++ "/" ++ joinPath names = "static/" ++ joinPath names := rfl
  unfold fullName
  rw [h1, if_neg h2, h3]

theorem DirOpen_joinPath (fs : FileSystem) (names : List String) (hne : names ≠ [])
    (h : ∀ n ∈ names, validName n) :
    DirOpen "static" fs (joinPath names) =
      match fs ("static/" ++ joinPath names) with
      | none => .error .notExist
      | some e => .ok e := by
  unfold DirOpen
  rw [fullName_joinPath names hne h]

theorem isPrefixOf_append_self (a b : List Char) : a.isPrefixOf (a ++ b) = true := by
  induction a with
  | nil => simp [List.isPrefixOf]
  | cons c cs ih => simp [List.isPrefixOf, ih]

theorem hasPrefix_append (a b : String) : HasPrefix (a ++ b) a = true := by
  unfold HasPrefix
  rw [String.data_append]
  exact isPrefixOf_append_self _ _

theorem trimPrefix_append (a b : String) : TrimPrefix (a ++ b) a = b := by
  unfold TrimPrefix
  rw [if_pos (hasPrefix_append a b)]
  apply String.ext
  simp [String.data_append]

theorem fileHandler_file (fs : FileSystem) (root : String) (r : Request) (bytes : String)
    (hidx : HasSuffix (if HasPrefix r.path "/" = true then r.path else "/" ++ r.path)
      "/index.html" = false)
    (hslash : endsWithSlash (if HasPrefix r.path "/" = true then r.path else "/" ++ r.path) = false)
    (hget : r.method = "GET") (hcond : r.conditional = false)
    (hfile : DirOpen root fs r.path = .ok (.file bytes)) :
    fileHandler fs root ResponseWriter.fresh r = .returned ⟨false, some 200, bytes⟩ := by
  have hc : ∀ m p : String, Request.conditional
      { method := m, path := p, query := r.query, header := r.header, body := r.body } = false :=
    fun _ _ => hcond
  unfold fileHandler serveFile
  simp only [hidx, DirOpen_upath, hfile, hslash, serveContent, hc, hget]
  simp [ResponseWriter.fresh, ResponseWriter.WriteHeader, ResponseWriter.Write,
    bodyAllowedForStatus]

theorem forRequest_eq_fresh (r : Request) (h : r.method ≠ "HEAD") :
    ResponseWriter.forRequest r = ResponseWriter.fresh := by
  unfold ResponseWriter.forRequest
  rw [decide_eq_false h]
  rfl

/-- The not-found answer as it is sent: the text is discarded for a HEAD
request. -/
theorem finish_notFound (r : Request) :
    finish (.returned (NotFound (ResponseWriter.forRequest r))) =
      .response 404 (if r.method = "HEAD" then "" else "404 page not found\n") := by
  by_cases h : r.method = "HEAD"
  · simp [h, finish, NotFound, Error, ResponseWriter.forRequest, ResponseWriter.fresh,
      ResponseWriter.WriteHeader, ResponseWriter.Write, bodyAllowedForStatus]
  · simp [h, finish, NotFound, Error, ResponseWriter.forRequest, ResponseWriter.fresh,
      ResponseWriter.WriteHeader, ResponseWriter.Write, bodyAllowedForStatus]

/-! ## Routing in `tinytodo-01-base` -/

theorem tiny_mux : TinyTodo.atListen.DefaultServeMux =
    ⟨[("/static/", .StripPrefix "/static/" (.FileServer "static")), ("/todo", .handleTodo)]⟩ :=
  rfl

theorem tiny_todoList : TinyTodo.atListen.todoList = TinyTodo.items := rfl

theorem todo_ne_of_static (p : String) (h : HasPrefix p "/static/" = true) :
    ("/todo" : String) ≠ p := by
  intro he
  rw [← he] at h
  exact absurd h (by decide)

theorem length_lt_append (b : String) :
    ("/static/" : String).data.length < ("/static/" ++ b ++ "/").data.length := by
  rw [String.data_append, String.data_append, List.length_append, List.length_append]
  have : ("/" : String).data.length = 1 := rfl
  omega

theorem tiny_route_static (r : Request) (rel : String) (hpath : r.path = "/static/" ++ rel)
    (hcanon : cleanPath r.path = r.path) :
    TinyTodo.atListen.DefaultServeMux.Handler r = .StripPrefix "/static/" (.FileServer "static") := by
  have hpre : HasPrefix r.path "/static/" = true := by rw [hpath]; exact hasPrefix_append _ _
  have hpre2 : HasPrefix (r.path ++ "/") "/static/" = true := by
    rw [hpath, String.append_assoc]; exact hasPrefix_append _ _
  have h1 := todo_ne_of_static _ hpre
  have h2 := todo_ne_of_static _ hpre2
  have h3 : ("/static/" : String) ≠ r.path ++ "/" := by
    intro he
    have := length_lt_append rel
    rw [← hpath, ← he] at this
    exact absurd this (lt_irrefl _)
  have hsuf : HasSuffix "/static/" "/" = true := by decide
  have hsuf2 : HasSuffix "/todo" "/" = false := by decide
  have hred : TinyTodo.atListen.DefaultServeMux.shouldRedirect r.path = false := by
    rw [tiny_mux]
    unfold ServeMux.shouldRedirect ServeMux.exact
    by_cases hp : ("/static/" : String) = r.path
    · simp [List.find?, hp]
    · simp [List.find?, hp, h1, h2, h3]
  have hh : TinyTodo.atListen.DefaultServeMux.handler r.path =
      .StripPrefix "/static/" (.FileServer "static") := by
    rw [tiny_mux]
    unfold ServeMux.handler ServeMux.matchPath ServeMux.exact
    by_cases hp : ("/static/" : String) = r.path
    · simp [List.find?, hp]
    · simp [List.find?, hp, h1, longestSubtree, hsuf, hsuf2, hpre]
  unfold ServeMux.Handler
  simp only [hcanon, hred, hh]
  simp

theorem tiny_route_none (r : Request) (hcanon : cleanPath r.path = r.path)
    (h1 : r.path ≠ "/todo") (h2 : r.path ≠ "/static") (h3 : HasPrefix r.path "/static/" = false) :
    TinyTodo.atListen.DefaultServeMux.Handler r = .NotFoundHandler := by
  have e1 : ("/static/" : String) ≠ r.path := by
    intro he; rw [← he] at h3; exact absurd h3 (by decide)
  have e2 : ("/todo" : String) ≠ r.path := fun he => h1 he.symm
  have e3 : ("/static/" : String) ≠ r.path ++ "/" := by
    intro he
    apply h2
    apply String.ext
    have hd := congrArg String.data he
    rw [String.data_append] at hd
    have h0 : ("/static/" : String).data = ("/static" : String).data ++ ("/" : String).data := rfl
    rw [h0] at hd
    exact (List.append_cancel_right hd).symm
  have e4 : ("/todo" : String) ≠ r.path ++ "/" := by
    intro he
    have hd := congrArg (fun s => s.data.getLast?) he
    simp only [String.data_append] at hd
    rw [List.getLast?_concat] at hd
    exact absurd hd (by decide)
  have hsuf2 : HasSuffix "/todo" "/" = false := by decide
  have hred : TinyTodo.atListen.DefaultServeMux.shouldRedirect r.path = false := by
    rw [tiny_mux]
    unfold ServeMux.shouldRedirect ServeMux.exact
    simp [List.find?, e1, e2, e3, e4]
  have hh : TinyTodo.atListen.DefaultServeMux.handler r.path = .NotFoundHandler := by
    rw [tiny_mux]
    unfold ServeMux.handler ServeMux.matchPath ServeMux.exact
    simp [List.find?, e1, e2, longestSubtree, hsuf2, h3]
  unfold ServeMux.Handler
  simp only [hcanon, hred, hh]
  simp

theorem tiny_route_todo (r : Request) (hpath : r.path = "/todo") :
    TinyTodo.atListen.DefaultServeMux.Handler r = .handleTodo := by
  have hc : cleanPath "/todo" = "/todo" := by decide
  have hred : TinyTodo.atListen.DefaultServeMux.shouldRedirect "/todo" = false := by decide
  have hh : TinyTodo.atListen.DefaultServeMux.handler "/todo" = .handleTodo := by decide
  unfold ServeMux.Handler
  simp only [hpath, hc, hred, hh]
  simp

/-- No handler changes the package-level state. -/
theorem ServeHTTP_state {T : Type} (E : TemplateEngine T) (fs : FileSystem) (p : Process)
    (h : Handler) : ∀ (w : ResponseWriter) (r : Request), (h.ServeHTTP E fs p w r).1 = p := by
  induction h with
  | FileServer root => intro w r; rfl
  | StripPrefix pfx h ih =>
    intro w r
    unfold Handler.ServeHTTP
    split
    · exact ih w r
    · split
      · exact ih w _
      · rfl
  | handleTodo =>
    intro w r
    unfold Handler.ServeHTTP handleTodo
    split <;> rfl
  | NotFoundHandler => intro w r; rfl
  | RedirectHandler url code => intro w r; rfl

/-! ## The file a canonical path names -/

theorem isPrefixOf_elim (a : List Char) : ∀ l : List Char, a.isPrefixOf l = true → ∃ t, l = a ++ t := by
  induction a with
  | nil => intro l _; exact ⟨l, rfl⟩
  | cons c cs ih =>
    intro l h
    cases l with
    | nil => simp [List.isPrefixOf] at h
    | cons d ds =>
      simp only [List.isPrefixOf, Bool.and_eq_true, beq_iff_eq] at h
      obtain ⟨t, ht⟩ := ih ds h.2
      exact ⟨t, by rw [h.1, ht]; rfl⟩

theorem hasSuffix_slash (p : String) : HasSuffix p "/" = endsWithSlash p := by
  unfold HasSuffix endsWithSlash
  rw [List.getLast?_eq_head?_reverse]
  show List.isPrefixOf ['/'] p.data.reverse = _
  generalize p.data.reverse = d
  cases d with
  | nil => simp [List.isPrefixOf]
  | cons c cs =>
    by_cases hc : c = '/'
    · simp [List.isPrefixOf, hc]
    · simp [List.isPrefixOf, hc, Ne.symm hc]

theorem trimSuffix_append_slash (q : String) : TrimSuffix (q ++ "/") "/" = q := by
  have hs : HasSuffix (q ++ "/") "/" = true := by
    rw [hasSuffix_slash]
    unfold endsWithSlash
    rw [String.data_append]
    show decide ((q.data ++ ['/']).getLast? = some '/') = true
    rw [List.getLast?_concat]
    rfl
  unfold TrimSuffix
  rw [if_pos hs]
  apply String.ext
  rw [String.data_append]
  show List.take ((q.data ++ ['/']).length - 1) (q.data ++ ['/']) = q.data
  rw [List.length_append]
  simp

/-- A canonical path is clean, or a clean path other than the root followed by
one slash. -/
theorem canonical_cases (p : String) (h : cleanPath p = p) :
    (endsWithSlash p = false ∧ pathClean p = p) ∨ p = "/" ∨
      (p = pathClean p ++ "/" ∧ pathClean p ≠ "/") := by
  have hr := cleanPath_rooted p h
  obtain ⟨l, hl⟩ := (hasPrefix_slash_iff p).1 hr
  have h0 : p.data ≠ [] := by rw [hl]; simp
  unfold cleanPath at h
  rw [if_neg h0] at h
  simp only [hr, if_true] at h
  by_cases hs : endsWithSlash p = true
  · by_cases hn : pathClean p = "/"
    · right; left
      simp only [hs, hn, ne_eq, not_true_eq_false, decide_False, Bool.and_false,
        Bool.false_eq_true, if_false] at h
      exact h.symm
    · right; right
      refine ⟨?_, hn⟩
      simp only [hs, hn, ne_eq, not_false_eq_true, decide_True, Bool.and_true, if_true] at h
      split at h
      · rename_i hc
        simp only [Bool.and_eq_true, decide_eq_true_eq] at hc
        obtain ⟨t, ht⟩ := isPrefixOf_elim _ _ hc.2
        have hlen : t.length = 1 := by
          have := congrArg List.length ht
          rw [List.length_append] at this
          omega
        match t, hlen with
        | [c], _ =>
          have hlast : p.data.getLast? = some '/' := by simpa [endsWithSlash] using hs
          rw [ht, List.getLast?_concat] at hlast
          have hc2 : c = '/' := Option.some.inj hlast
          apply String.ext
          rw [String.data_append, ht, hc2]
      · exact h.symm
  · left
    have hs2 : endsWithSlash p = false := by simpa using hs
    simp only [hs2, Bool.false_and, Bool.false_eq_true, if_false] at h
    exact ⟨hs2, h⟩

theorem fullName_rooted (q : String) (l : List Char) (hq : q.data = '/' :: l) (hl : l ≠ []) :
    (if (⟨q.data.drop 1⟩ : String) = "" then "static" else "static" ++ "/" ++ ⟨q.data.drop 1⟩) =
      "static" ++ q := by
  have h1 : (⟨q.data.drop 1⟩ : String) ≠ "" := by
    intro h0
    have := congrArg String.data h0
    rw [hq] at this
    exact hl this
  rw [if_neg h1]
  apply String.ext
  rw [String.data_append, String.data_append, String.data_append, hq]
  show "static".data ++ ['/'] ++ l = "static".data ++ '/' :: l
  simp

/-- The file `http.Dir("static")` opens for a canonical path: the path under
`static`, a trailing slash aside. -/
theorem fullName_canonical (p : String) (h : cleanPath p = p) :
    fullName "static" p = "static" ++ TrimSuffix p "/" := by
  have hr := cleanPath_rooted p h
  unfold fullName
  rw [pathClean_slash p hr]
  rcases canonical_cases p h with ⟨hs, hc⟩ | hroot | ⟨hp, hn⟩
  · obtain ⟨l, hl⟩ := (hasPrefix_slash_iff p).1 hr
    have hne : l ≠ [] := by
      intro h0
      rw [h0] at hl
      have : endsWithSlash p = true := by simp [endsWithSlash, hl]
      rw [hs] at this
      exact absurd this (by decide)
    have ht : TrimSuffix p "/" = p := by
      unfold TrimSuffix
      rw [hasSuffix_slash, hs]
      rfl
    rw [hc, ht]
    exact fullName_rooted p l hl hne
  · subst hroot
    decide
  · obtain ⟨l, hl⟩ := (hasPrefix_slash_iff _).1 (pathClean_rooted p hr)
    have hne : l ≠ [] := by
      intro h0
      apply hn
      apply String.ext
      rw [hl, h0]
    have ht : TrimSuffix p "/" = pathClean p := by
      conv_lhs => rw [hp]
      exact trimSuffix_append_slash _
    rw [ht]
    exact fullName_rooted _ l hl hne

/-! ## The claims -/

/-- C1 as stated fails: `templates/todo.html` loads and parses, a GET request
for `/todo` gets the three items, but a HEAD request for `/todo`, routed to
`handleTodo` just the same, gets status 200 with an empty body: the bytes the
handler writes for a HEAD request are discarded. -/
theorem head_todo_has_no_body :
    (ParseFiles sampleEngine sampleFS "templates/todo.html").2 = none ∧
    TinyTodo.atListen.DefaultServeMux.Handler (head "/todo") = .handleTodo ∧
    (serveRequest sampleEngine TinyTodo.atListen sampleFS (get "/todo")).2 =
      .response 200 "<ul><li>顔を洗う</li><li>朝食を食べる</li><li>歯を磨く</li></ul>" ∧
    (serveRequest sampleEngine TinyTodo.atListen sampleFS (head "/todo")).2 = .response 200 "" ∧
    ¬ occurInOrder "" ["顔を洗う", "朝食を食べる", "歯を磨く"] := by
  refine ⟨by decide, by decide, by decide, by decide, ?_⟩
  rintro ⟨a, b, h, _⟩
  have hd := congrArg String.data h
  rw [String.data_append, String.data_append] at hd
  have hl := congrArg List.length hd
  rw [List.length_append, List.length_append] at hl
  have h4 : ("顔を洗う" : String).data.length = 4 := rfl
  have h0 : ("" : String).data.length = 0 := rfl
  omega

/-- C1 amended: after `main` has initialised the item list, a request for
`/todo` is routed to `handleTodo`, and when the request is not a HEAD request
and `templates/todo.html` loads, parses and renders every bound item between
fixed texts, the response has status 200 and its body contains "顔を洗う",
"朝食を食べる", "歯を磨く" in this order. -/
theorem todo_renders_items {T : Type} (E : TemplateEngine T) (fs : FileSystem) (r : Request)
    (src : String) (t : T) (head lead trail foot : String)
    (hpath : r.path = "/todo")
    (hmethod : r.method ≠ "HEAD")
    (hfile : fs "templates/todo.html" = some (.file src))
    (hparse : E.Parse src = .ok t)
    (hexec : ∀ xs, (E.Execute t xs).1 =
      head ++ String.join (xs.map (fun x => lead ++ htmlEscape x ++ trail)) ++ foot) :
    TinyTodo.atListen.DefaultServeMux.Handler r = .handleTodo ∧
    ∃ body, (serveRequest E TinyTodo.atListen fs r).2 = .response 200 body ∧
      occurInOrder body ["顔を洗う", "朝食を食べる", "歯を磨く"] := by
  refine ⟨tiny_route_todo r hpath, ?_⟩
  have hparseFiles : (ParseFiles E fs "templates/todo.html").1 = some t := by
    simp [ParseFiles, hfile, hparse]
  have hesc : ∀ x ∈ TinyTodo.items, htmlEscape x = x := by decide
  refine ⟨(E.Execute t TinyTodo.atListen.todoList).1, ?_, ?_⟩
  · unfold serveRequest
    rw [tiny_route_todo r hpath, forRequest_eq_fresh r hmethod]
    simp [Handler.ServeHTTP, handleTodo, hparseFiles, TemplateExecute, finish,
      ResponseWriter.fresh, ResponseWriter.Write, ResponseWriter.WriteHeader,
      bodyAllowedForStatus]
  · rw [hexec, tiny_todoList]
    have e1 : htmlEscape "顔を洗う" = "顔を洗う" := hesc _ (by decide)
    have e2 : htmlEscape "朝食を食べる" = "朝食を食べる" := hesc _ (by decide)
    have e3 : htmlEscape "歯を磨く" = "歯を磨く" := hesc _ (by decide)
    simp only [TinyTodo.items, List.map, String.join, List.foldl, e1, e2, e3, occurInOrder]
    refine ⟨head ++ lead, trail ++ (lead ++ "朝食を食べる" ++ trail) ++
      (lead ++ "歯を磨く" ++ trail) ++ foot, ?_, trail ++ lead,
      trail ++ (lead ++ "歯を磨く" ++ trail) ++ foot, ?_, trail ++ lead, trail ++ foot, ?_, trivial⟩
    · simp [String.append_assoc]
    · simp [String.append_assoc]
    · simp [String.append_assoc]

/-- Witness for C1 amended: `GET /todo` on the sample environment. -/
theorem todo_renders_items_witness :
    TinyTodo.atListen.DefaultServeMux.Handler (get "/todo") = .handleTodo ∧
    ∃ body, (serveRequest sampleEngine TinyTodo.atListen sampleFS (get "/todo")).2 =
        .response 200 body ∧
      occurInOrder body ["顔を洗う", "朝食を食べる", "歯を磨く"] :=
  todo_renders_items sampleEngine sampleFS (get "/todo") "<ul>...</ul>" () "<ul>" "<li>" "</li>"
    "</ul>" rfl (by decide) rfl rfl (fun _ => rfl)

theorem serveRequest_state {T : Type} (E : TemplateEngine T) (p : Process) (fs : FileSystem)
    (r : Request) : (serveRequest E p fs r).1 = p :=
  ServeHTTP_state E fs p _ _ _

theorem serveAll_state {T : Type} (E : TemplateEngine T) (traffic : List (FileSystem × Request)) :
    ∀ p : Process, (serveAll E p traffic).1 = p := by
  induction traffic with
  | nil => intro p; rfl
  | cons x rest ih =>
    intro p
    obtain ⟨fs, r⟩ := x
    show (serveAll E (serveRequest E p fs r).1 rest).1 = p
    rw [ih, serveRequest_state]

/-- C6: `todoList` is nil at process start; the first statement of `main`
makes it the three items while no route is registered yet; the two
registrations leave it alone; so the state handed to `ListenAndServe` holds
exactly "顔を洗う", "朝食を食べる", "歯を磨く" in this order. -/
theorem todoList_at_listen :
    Process.start.todoList = [] ∧
    (TinyTodo.afterAppend Process.start).todoList = ["顔を洗う", "朝食を食べる", "歯を磨く"] ∧
    (TinyTodo.afterAppend Process.start).DefaultServeMux.m = [] ∧
    (∀ p, (TinyTodo.afterHandleStatic p).todoList = p.todoList) ∧
    (∀ p, (TinyTodo.afterHandleTodo p).todoList = p.todoList) ∧
    TinyTodo.atListen.todoList = ["顔を洗う", "朝食を食べる", "歯を磨く"] ∧
    (∀ (T : Type) (E : TemplateEngine T) (L : Listen),
      TinyTodo.main E L = listenOrDie E TinyTodo.atListen L) :=
  ⟨rfl, rfl, rfl, fun _ => rfl, fun _ => rfl, rfl, fun _ _ _ => rfl⟩

/-- C7: handling a request, of any path and against any file system, returns
the package state it received, so `todoList` keeps its length, contents and
order; after any sequence of requests served from the state `main` hands to
the listener it is still the initial three-item list, and so is the final
state of every run of `main`. -/
theorem todoList_unchanged {T : Type} (E : TemplateEngine T) :
    (∀ (p : Process) (fs : FileSystem) (r : Request),
      (serveRequest E p fs r).1.todoList = p.todoList) ∧
    (∀ (p : Process) (traffic : List (FileSystem × Request)),
      (serveAll E p traffic).1.todoList = p.todoList) ∧
    (∀ traffic : List (FileSystem × Request),
      (serveAll E TinyTodo.atListen traffic).1.todoList =
        ["顔を洗う", "朝食を食べる", "歯を磨く"]) ∧
    (∀ L : Listen, (TinyTodo.main E L).final.todoList = ["顔を洗う", "朝食を食べる", "歯を磨く"]) := by
  refine ⟨fun p fs r => by rw [serveRequest_state], fun p traffic => by rw [serveAll_state],
    fun traffic => by rw [serveAll_state]; rfl, fun L => ?_⟩
  cases L with
  | bindFailed err => rfl
  | served traffic err =>
    cases err with
    | none =>
      show (serveAll E TinyTodo.atListen traffic).1.todoList = _
      rw [serveAll_state]; rfl
    | some e =>
      show (serveAll E TinyTodo.atListen traffic).1.todoList = _
      rw [serveAll_state]; rfl

theorem listenOrDie_spec {T : Type} (E : TemplateEngine T) (p : Process) (L : Listen) :
    (listenOrDie E p L).fatal =
        (ListenAndServe E p L).2.2.map (fun e => "failed to start : " ++ e) ∧
      ((listenOrDie E p L).exitCode = 1 ↔ (ListenAndServe E p L).2.2 ≠ none) ∧
      ((listenOrDie E p L).exitCode = 0 ↔ (ListenAndServe E p L).2.2 = none) := by
  unfold listenOrDie
  rcases h : ListenAndServe E p L with ⟨q, outs, err⟩
  cases err <;> simp

/-- C8: in both programs `main` calls `log.Fatal` and exits with status 1
exactly when `ListenAndServe` returns a non-nil error, the message being
"failed to start : " followed by the error; with a nil error `log.Fatal` is
not called and the exit status is 0; a bind failure is such an error and no
request is served before the exit. -/
theorem fatal_iff_listen_error {T : Type} (E : TemplateEngine T) (L : Listen) :
    ((SimpleWebserver2.main E L).fatal =
        (ListenAndServe E SimpleWebserver2.atListen L).2.2.map (fun e => "failed to start : " ++ e) ∧
      ((SimpleWebserver2.main E L).exitCode = 1 ↔
        (ListenAndServe E SimpleWebserver2.atListen L).2.2 ≠ none) ∧
      ((SimpleWebserver2.main E L).exitCode = 0 ↔
        (ListenAndServe E SimpleWebserver2.atListen L).2.2 = none)) ∧
    ((TinyTodo.main E L).fatal =
        (ListenAndServe E TinyTodo.atListen L).2.2.map (fun e => "failed to start : " ++ e) ∧
      ((TinyTodo.main E L).exitCode = 1 ↔ (ListenAndServe E TinyTodo.atListen L).2.2 ≠ none) ∧
      ((TinyTodo.main E L).exitCode = 0 ↔ (ListenAndServe E TinyTodo.atListen L).2.2 = none)) ∧
    (∀ err : String,
      (SimpleWebserver2.main E (.bindFailed err)).fatal = some ("failed to start : " ++ err) ∧
      (SimpleWebserver2.main E (.bindFailed err)).exitCode = 1 ∧
      (SimpleWebserver2.main E (.bindFailed err)).outcomes = [] ∧
      (TinyTodo.main E (.bindFailed err)).fatal = some ("failed to start : " ++ err) ∧
      (TinyTodo.main E (.bindFailed err)).exitCode = 1 ∧
      (TinyTodo.main E (.bindFailed err)).outcomes = []) :=
  ⟨listenOrDie_spec E _ L, listenOrDie_spec E _ L, fun _ => ⟨rfl, rfl, rfl, rfl, rfl, rfl⟩⟩

/-- C9, the code at the failing inputs: with `templates/todo.html` missing,
and with a template that does not parse, `ParseFiles` returns an error, yet
`handleTodo` does not complete without raising: it panics with a nil pointer
dereference, and for the request `GET /todo` the server recovers the panic and
closes the connection, nothing having been written. -/
theorem handleTodo_load_failure_panics :
    (ParseFiles sampleEngine emptyFS "templates/todo.html").2 ≠ none ∧
    (¬ ∃ w, (handleTodo sampleEngine emptyFS TinyTodo.atListen ResponseWriter.fresh
      (get "/todo")).2 = .returned w) ∧
    (ParseFiles sampleEngine brokenFS "templates/todo.html").2 ≠ none ∧
    (¬ ∃ w, (handleTodo sampleEngine brokenFS TinyTodo.atListen ResponseWriter.fresh
      (get "/todo")).2 = .returned w) ∧
    (serveRequest sampleEngine TinyTodo.atListen emptyFS (get "/todo")).2 =
      .aborted "" "runtime error: invalid memory address or nil pointer dereference" := by
  refine ⟨by decide, ?_, by decide, ?_, by decide⟩
  · rintro ⟨w, hw⟩
    have : (handleTodo sampleEngine emptyFS TinyTodo.atListen ResponseWriter.fresh
      (get "/todo")).2 = .panicked ResponseWriter.fresh nilDereference := by decide
    rw [this] at hw
    cases hw
  · rintro ⟨w, hw⟩
    have : (handleTodo sampleEngine brokenFS TinyTodo.atListen ResponseWriter.fresh
      (get "/todo")).2 = .panicked ResponseWriter.fresh nilDereference := by decide
    rw [this] at hw
    cases hw

theorem parseFiles_nil_of_error {T : Type} (E : TemplateEngine T) (fs : FileSystem)
    (name : String) (h : (ParseFiles E fs name).2 ≠ none) : (ParseFiles E fs name).1 = none := by
  unfold ParseFiles at h ⊢
  split
  · rename_i src hsrc
    rw [hsrc] at h
    simp only at h
    split
    · rename_i t ht
      rw [ht] at h
      exact absurd rfl h
    · rfl
  · rfl
  · rfl

/-- The failure of `handleTodo` in general: whenever loading or parsing
`templates/todo.html` fails, the error is dropped and `Execute` is still
called, on a nil template; the call panics before anything is written, so the
handler does not return, the response writer is as it was (no status, no
byte), and for a request routed to `/todo` the server recovers the panic and
closes the connection without a response. -/
theorem handleTodo_load_failure {T : Type} (E : TemplateEngine T) (fs : FileSystem) (p : Process)
    (w : ResponseWriter) (r : Request)
    (hfail : (ParseFiles E fs "templates/todo.html").2 ≠ none) :
    handleTodo E fs p w r = (p, .panicked w nilDereference) ∧
    (r.path = "/todo" →
      (serveRequest E TinyTodo.atListen fs r).2 = .aborted "" nilDereference) := by
  have hnil := parseFiles_nil_of_error E fs _ hfail
  have h1 : ∀ (q : Process) (v : ResponseWriter),
      handleTodo E fs q v r = (q, .panicked v nilDereference) := by
    intro q v
    simp [handleTodo, hnil, TemplateExecute]
  refine ⟨h1 p w, fun hpath => ?_⟩
  unfold serveRequest
  rw [tiny_route_todo r hpath]
  simp [Handler.ServeHTTP, h1, finish, ResponseWriter.forRequest, ResponseWriter.fresh]

/-- The general failure instantiated with a missing template file. -/
theorem handleTodo_load_failure_witness :
    handleTodo sampleEngine emptyFS TinyTodo.atListen ResponseWriter.fresh (get "/todo") =
      (TinyTodo.atListen, .panicked ResponseWriter.fresh nilDereference) ∧
    (serveRequest sampleEngine TinyTodo.atListen emptyFS (get "/todo")).2 =
      .aborted "" nilDereference :=
  have h := handleTodo_load_failure sampleEngine emptyFS TinyTodo.atListen ResponseWriter.fresh
    (get "/todo") (by decide)
  ⟨h.1, h.2 rfl⟩

/-- C10: `handleTodo` does not read its request. Its result is determined by
the content of `templates/todo.html` and by `todoList`: two calls that agree on
these, writing to the same response writer, give the same result whatever the
two requests are; and any two requests for `/todo`, whatever their query,
header fields and body, get the same outcome from the server as soon as they
agree on being a HEAD request or not. -/
theorem handleTodo_ignores_request {T : Type} (E : TemplateEngine T) (fs1 fs2 : FileSystem)
    (p1 p2 : Process) (w : ResponseWriter) (r1 r2 : Request)
    (hfile : fs1 "templates/todo.html" = fs2 "templates/todo.html")
    (hlist : p1.todoList = p2.todoList)
    (h1 : r1.path = "/todo") (h2 : r2.path = "/todo") :
    (handleTodo E fs1 p1 w r1).2 = (handleTodo E fs2 p2 w r2).2 ∧
    ((r1.method = "HEAD" ↔ r2.method = "HEAD") →
      (serveRequest E TinyTodo.atListen fs1 r1).2 =
        (serveRequest E TinyTodo.atListen fs2 r2).2) := by
  have hparse : ParseFiles E fs1 "templates/todo.html" = ParseFiles E fs2 "templates/todo.html" := by
    unfold ParseFiles; rw [hfile]
  have key : ∀ (q1 q2 : Process) (v : ResponseWriter), q1.todoList = q2.todoList →
      (handleTodo E fs1 q1 v r1).2 = (handleTodo E fs2 q2 v r2).2 := by
    intro q1 q2 v hq
    unfold handleTodo
    rw [hparse, hq]
    split <;> rfl
  refine ⟨key p1 p2 w hlist, fun hhead => ?_⟩
  have hw : ResponseWriter.forRequest r1 = ResponseWriter.forRequest r2 := by
    unfold ResponseWriter.forRequest
    rw [decide_eq_decide.2 hhead]
  unfold serveRequest
  rw [tiny_route_todo r1 h1, tiny_route_todo r2 h2, hw]
  exact congrArg finish (key _ _ _ rfl)

/-- Witness for C10: a GET and a POST that differ in query, header and body. -/
theorem handleTodo_ignores_request_witness :
    (handleTodo sampleEngine sampleFS TinyTodo.atListen ResponseWriter.fresh (get "/todo")).2 =
      (handleTodo sampleEngine sampleFS TinyTodo.atListen ResponseWriter.fresh
        ⟨"POST", "/todo", "done=1", [("Content-Type", "text/plain")], "x"⟩).2 ∧
    (serveRequest sampleEngine TinyTodo.atListen sampleFS (get "/todo")).2 =
      (serveRequest sampleEngine TinyTodo.atListen sampleFS
        ⟨"POST", "/todo", "done=1", [("Content-Type", "text/plain")], "x"⟩).2 :=
  have h := handleTodo_ignores_request sampleEngine sampleFS sampleFS TinyTodo.atListen
    TinyTodo.atListen ResponseWriter.fresh (get "/todo")
    ⟨"POST", "/todo", "done=1", [("Content-Type", "text/plain")], "x"⟩ rfl rfl rfl rfl
  ⟨h.1, h.2 (by decide)⟩

theorem hasSuffix_append_left (a b s : String) (h : HasSuffix b s = true) :
    HasSuffix (a ++ b) s = true := by
  unfold HasSuffix at h ⊢
  rw [List.isSuffixOf_iff_suffix] at h ⊢
  rw [String.data_append]
  exact h.trans (List.suffix_append _ _)

/-- C2 as stated fails: `static/index.html` exists, but a GET request for
`/index.html` is answered with a redirect, not with status 200 and the bytes
of the file. -/
theorem index_html_redirected :
    sampleFS "static/index.html" = some (.file "<html></html>") ∧
    (serveRequest sampleEngine SimpleWebserver2.atListen sampleFS (get "/index.html")).2 =
      .redirect 301 "./" ∧
    (serveRequest sampleEngine SimpleWebserver2.atListen sampleFS (get "/index.html")).2 ≠
      .response 200 "<html></html>" := by
  decide

/-- C2 amended: for every file under `static` whose relative path is made of
valid names and does not end in `/index.html`, a GET request without
conditional or range header fields for that path is handled by the file server
and answered with status 200 and exactly the bytes of the file. -/
theorem static_file_served {T : Type} (E : TemplateEngine T) (fs : FileSystem) (r : Request)
    (names : List String) (bytes : String)
    (hne : names ≠ []) (hvalid : ∀ n ∈ names, validName n)
    (hpath : r.path = "/" ++ joinPath names)
    (hidx : HasSuffix r.path "/index.html" = false)
    (hget : r.method = "GET") (hcond : r.conditional = false)
    (hfile : fs ("static/" ++ joinPath names) = some (.file bytes)) :
    SimpleWebserver2.atListen.DefaultServeMux.Handler r = .FileServer "static" ∧
    (serveRequest E SimpleWebserver2.atListen fs r).2 = .response 200 bytes := by
  have hcanon : cleanPath r.path = r.path := by
    rw [hpath]; exact cleanPath_joinPath names hne hvalid
  have hroot : HasPrefix r.path "/" = true := cleanPath_rooted _ hcanon
  have hopen : DirOpen "static" fs r.path = .ok (.file bytes) := by
    rw [DirOpen_congr "static" fs r.path (joinPath names)
      (by rw [hpath]; exact pathClean_slash _ (hasPrefix_slash_append _)),
      DirOpen_joinPath fs names hne hvalid, hfile]
  have hroute := simple_route r hcanon
  refine ⟨hroute, ?_⟩
  unfold serveRequest
  rw [hroute, forRequest_eq_fresh r (by rw [hget]; decide)]
  have := fileHandler_file fs "static" r bytes (by rw [if_pos hroot]; exact hidx)
    (by rw [if_pos hroot, hpath]; exact endsWithSlash_joinPath names hne hvalid) hget hcond hopen
  simp [Handler.ServeHTTP, this, finish]

/-- Witness for C2 amended: `static/app.css` of the sample directory. -/
theorem static_file_served_witness :
    SimpleWebserver2.atListen.DefaultServeMux.Handler (get "/app.css") = .FileServer "static" ∧
    (serveRequest sampleEngine SimpleWebserver2.atListen sampleFS (get "/app.css")).2 =
      .response 200 "h1 \x7b margin: 0 \x7d" :=
  static_file_served sampleEngine sampleFS (get "/app.css") ["app.css"] "h1 \x7b margin: 0 \x7d"
    (by decide) (by decide) rfl (by decide) rfl (by decide) rfl

/-- C3 as stated fails: `static/index.html` exists, but the response to
`/static/index.html` is a redirect without the bytes of the file; and the
missing `static/nothing/index.html` is answered with a redirect, not with 404. -/
theorem static_index_html_redirected :
    sampleFS "static/index.html" = some (.file "<html></html>") ∧
    (serveRequest sampleEngine TinyTodo.atListen sampleFS (get "/static/index.html")).2 =
      .redirect 301 "./" ∧
    sampleFS "static/nothing/index.html" = none ∧
    (serveRequest sampleEngine TinyTodo.atListen sampleFS (get "/static/nothing/index.html")).2 =
      .redirect 301 "./" := by
  decide

/-- C3 amended: for every path `p` made of valid names, a request for
`/static/p` that does not end in `/index.html` is routed to the file server
behind `StripPrefix`, which looks up `static/p` (the outcome depends on the
file system at `static/p` only): when that is a file, a GET request without
conditional or range header fields is answered with status 200 and the bytes
of the file; when nothing is there, the answer is 404 (with the text
`404 page not found`, which a HEAD request does not get). -/
theorem static_route_strips {T : Type} (E : TemplateEngine T) (fs : FileSystem) (r : Request)
    (names : List String)
    (hne : names ≠ []) (hvalid : ∀ n ∈ names, validName n)
    (hpath : r.path = "/static/" ++ joinPath names)
    (hidx : HasSuffix r.path "/index.html" = false) :
    TinyTodo.atListen.DefaultServeMux.Handler r =
      .StripPrefix "/static/" (.FileServer "static") ∧
    (∀ bytes, fs ("static/" ++ joinPath names) = some (.file bytes) →
      r.method = "GET" → r.conditional = false →
      (serveRequest E TinyTodo.atListen fs r).2 = .response 200 bytes) ∧
    (fs ("static/" ++ joinPath names) = none →
      (serveRequest E TinyTodo.atListen fs r).2 =
        .response 404 (if r.method = "HEAD" then "" else "404 page not found\n")) := by
  have hstatic : validName "static" := by decide
  have hvalid2 : ∀ n ∈ "static" :: names, validName n := by
    intro n hn
    rcases List.mem_cons.1 hn with rfl | hn
    · exact hstatic
    · exact hvalid n hn
  have hcanon : cleanPath r.path = r.path := by
    rw [hpath, static_joinPath names hne]
    exact cleanPath_joinPath _ (by simp) hvalid2
  have hroute := tiny_route_static r (joinPath names) hpath hcanon
  have hrel := hasPrefix_joinPath names hvalid
  have hidx2 : HasSuffix ("/" ++ joinPath names) "/index.html" = false := by
    cases h : HasSuffix ("/" ++ joinPath names) "/index.html" with
    | false => rfl
    | true =>
      have := hasSuffix_append_left "/static" _ _ h
      have e : "/static" ++ ("/" ++ joinPath names) = r.path := by
        rw [hpath, ← String.append_assoc]; rfl
      rw [e, hidx] at this
      exact absurd this (by decide)
  have hlen : (joinPath names).data.length < r.path.data.length := by
    rw [hpath, String.data_append, List.length_append]
    have : ("/static/" : String).data.length = 8 := rfl
    omega
  have hserve : (serveRequest E TinyTodo.atListen fs r).2 =
      finish (fileHandler fs "static" (ResponseWriter.forRequest r)
        { r with path := joinPath names }) := by
    unfold serveRequest
    rw [hroute]
    have htrim : TrimPrefix r.path "/static/" = joinPath names := by
      rw [hpath]; exact trimPrefix_append _ _
    have hp : ("/static/" : String) ≠ "" := by decide
    have hlen2 : (joinPath names).length < r.path.length := hlen
    simp [Handler.ServeHTTP, htrim, hlen2, hp]
  refine ⟨hroute, ?_, ?_⟩
  · intro bytes hfile hget hcond
    have hopen : DirOpen "static" fs (joinPath names) = .ok (.file bytes) := by
      rw [DirOpen_joinPath fs names hne hvalid, hfile]
    have := fileHandler_file fs "static" { r with path := joinPath names } bytes
      (by simp only [hrel]; exact hidx2)
      (by simp only [hrel]; exact endsWithSlash_joinPath names hne hvalid) hget hcond hopen
    rw [hserve, forRequest_eq_fresh r (by rw [hget]; decide), this]
    rfl
  · intro hfile
    have hopen : DirOpen "static" fs (joinPath names) = .error .notExist := by
      rw [DirOpen_joinPath fs names hne hvalid, hfile]
    have := fileHandler_notExist fs "static" (ResponseWriter.forRequest r)
      { r with path := joinPath names } (by simp only [hrel]; exact hidx2) hopen
    rw [hserve, this, finish_notFound]

/-- Witness for C3 amended: `app.css` is present, `missing.css` is not
(instantiated at `/static/app.css`). -/
theorem static_route_strips_witness :
    TinyTodo.atListen.DefaultServeMux.Handler (get "/static/app.css") =
      .StripPrefix "/static/" (.FileServer "static") ∧
    (serveRequest sampleEngine TinyTodo.atListen sampleFS (get "/static/app.css")).2 =
      .response 200 "h1 \x7b margin: 0 \x7d" :=
  have h := static_route_strips sampleEngine sampleFS (get "/static/app.css") ["app.css"]
    (by decide) (by decide) rfl (by decide)
  ⟨h.1, h.2.1 "h1 \x7b margin: 0 \x7d" rfl rfl (by decide)⟩

/-- C4 as stated fails: nothing named `nothing/index.html` exists under
`static`, yet the request for it is answered with a redirect, not 404; and a
request whose path is not canonical is not handled by the file handler but by
a redirect handler of the mux. -/
theorem missing_index_redirected :
    sampleFS "static/nothing/index.html" = none ∧
    (serveRequest sampleEngine SimpleWebserver2.atListen sampleFS (get "/nothing/index.html")).2 =
      .redirect 301 "./" ∧
    sampleFS "static/nothing" = none ∧
    SimpleWebserver2.atListen.DefaultServeMux.Handler (get "//nothing") =
      .RedirectHandler "/nothing" 301 ∧
    SimpleWebserver2.atListen.DefaultServeMux.Handler (get "//nothing") ≠ .FileServer "static" ∧
    (serveRequest sampleEngine SimpleWebserver2.atListen sampleFS (get "//nothing")).2 =
      .redirect 301 "/nothing" := by
  decide

/-- C4 amended: every request whose path is canonical is handled by the file
handler registered on "/"; if moreover the path does not end in `/index.html`
and no entry exists under `static` at the path (a trailing slash aside), the
response is 404 not found (with the text `404 page not found`, which a HEAD
request does not get). -/
theorem static_missing_not_found {T : Type} (E : TemplateEngine T) (fs : FileSystem)
    (r : Request)
    (hcanon : cleanPath r.path = r.path) :
    SimpleWebserver2.atListen.DefaultServeMux.Handler r = .FileServer "static" ∧
    (HasSuffix r.path "/index.html" = false →
      fs ("static" ++ TrimSuffix r.path "/") = none →
      (serveRequest E SimpleWebserver2.atListen fs r).2 =
        .response 404 (if r.method = "HEAD" then "" else "404 page not found\n")) := by
  have hroot : HasPrefix r.path "/" = true := cleanPath_rooted _ hcanon
  have hroute := simple_route r hcanon
  refine ⟨hroute, fun hidx hmiss => ?_⟩
  have hopen : DirOpen "static" fs r.path = .error .notExist := by
    unfold DirOpen
    rw [fullName_canonical r.path hcanon, hmiss]
  unfold serveRequest
  rw [hroute]
  have := fileHandler_notExist fs "static" (ResponseWriter.forRequest r) r
    (by rw [if_pos hroot]; exact hidx) hopen
  simp only [Handler.ServeHTTP, this, finish_notFound]

/-- Witness for C4 amended: `/missing.css` on the sample directory. -/
theorem static_missing_not_found_witness :
    SimpleWebserver2.atListen.DefaultServeMux.Handler (get "/missing.css") =
      .FileServer "static" ∧
    (serveRequest sampleEngine SimpleWebserver2.atListen sampleFS (get "/missing.css")).2 =
      .response 404 "404 page not found\n" :=
  have h := static_missing_not_found sampleEngine sampleFS (get "/missing.css") (by decide)
  ⟨h.1, h.2 (by decide) rfl⟩

/-- C5 as stated fails: the path `/static` is not `/todo` and does not begin
with `/static/`, yet the request is answered with a redirect to `/static/`,
not with 404. -/
theorem static_without_slash_redirected :
    (get "/static").path ≠ "/todo" ∧ HasPrefix (get "/static").path "/static/" = false ∧
    TinyTodo.atListen.DefaultServeMux.Handler (get "/static") =
      .RedirectHandler "/static/" 301 ∧
    (serveRequest sampleEngine TinyTodo.atListen sampleFS (get "/static")).2 =
      .redirect 301 "/static/" := by
  decide

/-- C5 amended: every request whose path is canonical, is not `/todo`, is not
`/static` and does not begin with `/static/` matches no registered pattern:
the mux answers with its not-found handler, the response is 404 (with the
text `404 page not found`, which a HEAD request does not get), and neither
`handleTodo` nor the file handler is called. -/
theorem unmatched_not_found {T : Type} (E : TemplateEngine T) (fs : FileSystem) (r : Request)
    (hcanon : cleanPath r.path = r.path)
    (h1 : r.path ≠ "/todo") (h2 : r.path ≠ "/static")
    (h3 : HasPrefix r.path "/static/" = false) :
    TinyTodo.atListen.DefaultServeMux.Handler r = .NotFoundHandler ∧
    (serveRequest E TinyTodo.atListen fs r).2 =
      .response 404 (if r.method = "HEAD" then "" else "404 page not found\n") := by
  have hroute := tiny_route_none r hcanon h1 h2 h3
  refine ⟨hroute, ?_⟩
  unfold serveRequest
  rw [hroute]
  simp only [Handler.ServeHTTP, finish_notFound]

/-- Witness for C5 amended: `/unknown`. -/
theorem unmatched_not_found_witness :
    TinyTodo.atListen.DefaultServeMux.Handler (get "/unknown") = .NotFoundHandler ∧
    (serveRequest sampleEngine TinyTodo.atListen sampleFS (get "/unknown")).2 =
      .response 404 "404 page not found\n" :=
  unmatched_not_found sampleEngine sampleFS (get "/unknown") (by decide) (by decide) (by decide)
    (by decide)

end WebTech
